import Mathlib

/-!
Verification of `ema_workbench/em_framework/parameters.py`.

The Python source is shallowly embedded: Python numbers become an explicit
int/float sum type over exact rationals, fallible constructors return
`Except`, scipy frozen distributions become a structure carrying the pieces
the source inspects (family name, frozen args, keyword args, support
endpoints, discreteness flag, inverse CDF), and the experiment generator
becomes a suspended-arguments value whose iteration is a function producing
either an error or the full list of yielded cases.
-/

set_option maxHeartbeats 1000000

namespace EMA

/-- Python numbers as they appear in the source: an `int` or a `float`.
Floats are idealised as exact rationals.  `isinstance(x, numbers.Integral)`
holds exactly for the `int` constructor. -/
inductive PyNum where
  | int (n : Int)
  | float (q : ℚ)
deriving DecidableEq, Repr

namespace PyNum

/-- The numeric value of a Python number; Python `==`, `<`, `+` on numbers
compare and combine int and float by value. -/
def val : PyNum → ℚ
  | .int n => (n : ℚ)
  | .float q => q

/-- `isinstance(x, numbers.Integral)`. -/
def isIntegral : PyNum → Bool
  | .int _ => true
  | .float _ => false

/-- Python numeric `==` (value based, so `1 == 1.0`). -/
def numEq (a b : PyNum) : Bool := decide (a.val = b.val)

/-- Python `+` on numbers: int plus int is an int, otherwise a float. -/
def add : PyNum → PyNum → PyNum
  | .int a, .int b => .int (a + b)
  | a, b => .float (a.val + b.val)

/-- Python `-` on numbers: int minus int is an int, otherwise a float. -/
def sub : PyNum → PyNum → PyNum
  | .int a, .int b => .int (a - b)
  | a, b => .float (a.val - b.val)

end PyNum

/-- Python exceptions raised by the modelled code. -/
inductive PyError where
  | valueError (msg : String)
  | typeError (msg : String)
  | assertionError
  | keyError
  | attributeError
deriving DecidableEq, Repr

/-- Equality on `Except` results is decidable when both components are. -/
instance {e a : Type} [DecidableEq e] [DecidableEq a] :
    DecidableEq (Except e a) := fun x y =>
  match x, y with
  | .ok u, .ok v =>
    if h : u = v then isTrue (by rw [h]) else isFalse (by
      intro hc
      injection hc
      contradiction)
  | .error u, .error v =>
    if h : u = v then isTrue (by rw [h]) else isFalse (by
      intro hc
      injection hc
      contradiction)
  | .ok _, .error _ => isFalse (by intro hc; cases hc)
  | .error _, .ok _ => isFalse (by intro hc; cases hc)

/-- Decimal digits of a natural number, most significant first, mirroring
Python `str` on a non-negative int. -/
def natDigits (n : Nat) : List Char :=
  if _h : n < 10 then [Nat.digitChar n]
  else natDigits (n / 10) ++ [Nat.digitChar (n % 10)]
termination_by n
decreasing_by exact Nat.div_lt_self (by omega) (by omega)

/-- Python `str` of a natural number. -/
def natStr (n : Nat) : String := ⟨natDigits n⟩

/-- Python `str` of an int. -/
def intStr (n : Int) : String :=
  if n < 0 then "-" ++ ⟨natDigits n.natAbs⟩ else ⟨natDigits n.natAbs⟩

/-- Reading decimal digits back as a number (used only to prove that decimal
rendering is injective). -/
def digitsVal (l : List Char) : Nat :=
  l.foldl (fun a c => 10 * a + (c.toNat - 48)) 0

theorem digitsVal_append_singleton (xs : List Char) (c : Char) :
    digitsVal (xs ++ [c]) = 10 * digitsVal xs + (c.toNat - 48) := by
  simp [digitsVal, List.foldl_append]

theorem digitChar_toNat_of_lt_ten : ∀ d : Nat, d < 10 → (Nat.digitChar d).toNat - 48 = d := by
  decide

theorem digitChar_ne_space : ∀ d : Nat, d < 10 → Nat.digitChar d ≠ ' ' := by
  decide

theorem digitsVal_natDigits (n : Nat) : digitsVal (natDigits n) = n := by
  induction n using Nat.strong_induction_on with
  | _ n ih =>
    rw [natDigits]
    split
    · next h =>
      simpa [digitsVal] using digitChar_toNat_of_lt_ten n h
    · next h =>
      rw [digitsVal_append_singleton, ih (n / 10) (Nat.div_lt_self (by omega) (by omega)),
        digitChar_toNat_of_lt_ten (n % 10) (Nat.mod_lt _ (by omega))]
      omega

theorem natDigits_injective {a b : Nat} (h : natDigits a = natDigits b) : a = b := by
  have := congrArg digitsVal h
  rwa [digitsVal_natDigits, digitsVal_natDigits] at this

theorem space_not_mem_natDigits (n : Nat) : ' ' ∉ natDigits n := by
  induction n using Nat.strong_induction_on with
  | _ n ih =>
    rw [natDigits]
    split
    · next h =>
      simpa using fun hc => (digitChar_ne_space n h) hc.symm
    · next h =>
      intro hmem
      rcases List.mem_append.mp hmem with hmem | hmem
      · exact ih (n / 10) (Nat.div_lt_self (by omega) (by omega)) hmem
      · have : ' ' = Nat.digitChar (n % 10) := by simpa using hmem
        exact digitChar_ne_space (n % 10) (Nat.mod_lt _ (by omega)) this.symm

/-- If two strings of the shape `body ++ " " ++ tail` agree and neither tail
contains a space, the tails agree: the first space-free block after a space,
read from the right, is determined.  Stated on reversed lists: the space-free
block before the first space is determined. -/
theorem firstBlock_eq : ∀ {a1 a2 r1 r2 : List Char}, ' ' ∉ a1 → ' ' ∉ a2 →
    a1 ++ ' ' :: r1 = a2 ++ ' ' :: r2 → a1 = a2 := by
  intro a1
  induction a1 with
  | nil =>
    intro a2 r1 r2 _ h2 h
    cases a2 with
    | nil => rfl
    | cons c a2' =>
      exfalso
      have hc : c = ' ' := by
        have := congrArg (fun l => l.head?) h
        simpa using this.symm
      exact h2 (by simp [hc])
  | cons c a1' ih =>
    intro a2 r1 r2 h1 h2 h
    cases a2 with
    | nil =>
      exfalso
      have hc : c = ' ' := by
        have := congrArg (fun l => l.head?) h
        simpa using this
      exact h1 (by simp [hc])
    | cons d a2' =>
      have hcd : c = d := by
        have := congrArg (fun l => l.head?) h
        simpa using this
      have htail : a1' ++ ' ' :: r1 = a2' ++ ' ' :: r2 := by
        have := congrArg (fun l => l.tail) h
        simpa using this
      have := ih (fun hm => h1 (List.mem_cons_of_mem _ hm))
        (fun hm => h2 (List.mem_cons_of_mem _ hm)) htail
      rw [hcd, this]

/-- The last space-separated token of a character list is determined when it
contains no space itself. -/
theorem lastToken_eq {l1 l2 d1 d2 : List Char} (h1 : ' ' ∉ d1) (h2 : ' ' ∉ d2)
    (h : l1 ++ ' ' :: d1 = l2 ++ ' ' :: d2) : d1 = d2 := by
  have hrev := congrArg List.reverse h
  simp only [List.reverse_append, List.reverse_cons] at hrev
  have hrev' : d1.reverse ++ ' ' :: l1.reverse = d2.reverse ++ ' ' :: l2.reverse := by
    simpa [List.append_assoc] using hrev
  have := firstBlock_eq (by simpa using h1) (by simpa using h2) hrev'
  have := congrArg List.reverse this
  simpa using this

/-! ## Distributions

The source consumes frozen `scipy.stats` distributions.  A frozen
distribution exposes the family object `dist` (with its `name`), the frozen
positional `args` and keyword `kwds`, the standardised support endpoints
`a` and `b`, and the inverse CDF `ppf`; `isinstance(dist.dist,
stats.rv_discrete)` is the discreteness test used by the source. -/

/-- Model of a frozen scipy distribution: exactly the pieces the source
reads.  `ppf` is idealised over exact rationals. -/
structure Dist where
  dist_name : String
  args : List PyNum
  kwds : List (String × PyNum)
  a : ℚ
  b : ℚ
  isDiscrete : Bool
  ppf : ℚ → ℚ

/-- The Python float literal `5e-324` used by the source: the smallest
positive double, whose exact value is `2 ^ (-1074)`. -/
def smallestPosFloat : ℚ := 1 / 2 ^ 1074

/-- `_get_bounds_from_dist`: the inverse CDF at 1 gives the upper bound; the
lower bound comes from the inverse CDF at 0, except that for a discrete
family the source evaluates at the smallest positive float because
`ppf(0)` of an `rv_discrete` returns one unit below the true lower bound. -/
def getBoundsFromDist (dist : Dist) : ℚ × ℚ :=
  let ppf_zero : ℚ := if dist.isDiscrete then smallestPosFloat else 0
  (dist.ppf ppf_zero, dist.ppf 1)

/-- `_get_lower_bound_from_dist` (the `lower_bound` property). -/
def getLowerFromDist (dist : Dist) : ℚ :=
  let ppf_zero : ℚ := if dist.isDiscrete then smallestPosFloat else 0
  dist.ppf ppf_zero

/-- `_get_upper_bound_from_dist` (the `upper_bound` property). -/
def getUpperFromDist (dist : Dist) : ℚ := dist.ppf 1

/-- Frozen `scipy.stats.uniform(loc, scale)`: continuous uniform on
`[loc, loc + scale]`; the frozen support endpoints are the standardised
`(0, 1)`; `ppf q = loc + q * scale`. -/
def uniformFrozen (loc scale : PyNum) : Dist :=
  { dist_name := "uniform"
    args := [loc, scale]
    kwds := []
    a := 0
    b := 1
    isDiscrete := false
    ppf := fun q => loc.val + q * scale.val }

/-- Frozen `scipy.stats.randint(low, high)`: discrete uniform on the integers
`low, ..., high - 1`; support endpoints `(low, high - 1)`;
`ppf q = ceil (q * (high - low)) + low - 1`, which at `q = 0` yields
`low - 1` (the scipy quirk the source works around). -/
def randintFrozen (low high : PyNum) : Dist :=
  { dist_name := "randint"
    args := [low, high]
    kwds := []
    a := low.val
    b := high.val - 1
    isDiscrete := true
    ppf := fun q => (⌈q * (high.val - low.val)⌉ : ℚ) + low.val - 1 }

/-! ## Categories and the named-object map -/

/-- Fractional decimal digits of a rational in `[0, 1)`, with fuel (Python
prints floats as finite decimals; unused by any theorem, needed only to
make `str` total on float category values). -/
def fracDigits : Nat → ℚ → List Char
  | 0, _ => []
  | fuel + 1, q =>
    if q = 0 then []
    else Nat.digitChar ⌊q * 10⌋.toNat :: fracDigits fuel (q * 10 - ⌊q * 10⌋)

/-- Python `str` of a non-negative float. -/
def floatStrNonneg (q : ℚ) : String :=
  if q - ⌊q⌋ = 0 then ⟨natDigits ⌊q⌋.toNat⟩ ++ ".0"
  else ⟨natDigits ⌊q⌋.toNat⟩ ++ "." ++ ⟨fracDigits 17 (q - ⌊q⌋)⟩

/-- Python `str` of a float. -/
def floatStr (q : ℚ) : String :=
  if q < 0 then "-" ++ floatStrNonneg (-q) else floatStrNonneg q

/-- The category values covered by the model: Python numbers, strings and
booleans (every category value the claims exercise). -/
inductive PyVal where
  | num (n : PyNum)
  | str (s : String)
  | bool (b : Bool)
deriving DecidableEq, Repr

/-- Python `str()` on a covered value. -/
def pyValStr : PyVal → String
  | .num (.int n) => intStr n
  | .num (.float q) => floatStr q
  | .str s => s
  | .bool b => if b then "True" else "False"

/-- `Category(name, value)`: a named value holder. -/
structure Category where
  name : String
  value : PyVal
deriving DecidableEq, Repr

/-- `create_category`: wraps a raw value as `Category(str(cat), cat)` (a
value that already is a `Category` passes through unchanged; the model
covers raw values). -/
def create_category (cat : PyVal) : Category := ⟨pyValStr cat, cat⟩

/-- Modelled from the spec: `NamedObjectMap.append` from
`em_framework/util.py` is not under src/; the spec lists the named-entity
utilities as external collaborators providing "name uniqueness, ordered
mapping".  We model the map as an insertion-ordered list with unique names:
appending a value whose name is already present replaces the stored value in
place (mapping semantics keyed by name), otherwise the value is appended at
the end. -/
def NOMap.append (m : List Category) (c : Category) : List Category :=
  if m.any (fun x => x.name == c.name) then
    m.map (fun x => if x.name == c.name then c else x)
  else m ++ [c]

/-- Modelled from the spec: `NamedObjectMap.extend` appends each value in
turn. -/
def NOMap.extend (m : List Category) (cs : List Category) : List Category :=
  cs.foldl NOMap.append m

/-! ## The parameter hierarchy -/

/-- The instance attributes a constructed `Parameter` stores: everything in
`__dict__` relevant to the source.  The bounds are not stored: the source
exposes `lower_bound` and `upper_bound` as properties recomputed from
`rv_gen`, which every concrete constructor sets. -/
structure ParamCore where
  name : String
  resolution : List PyNum
  default : Option PyNum
  variable_name : Option (List String)
  pff : Bool
  rv_gen : Dist

/-- A constructed parameter: the concrete class tag plus the stored
attributes; `CategoricalParameter` additionally stores its ordered category
map and the `multivalue` flag. -/
inductive EMAParam where
  | real (core : ParamCore)
  | integer (core : ParamCore)
  | categorical (core : ParamCore) (categories : List Category) (multivalue : Bool)

namespace EMAParam

/-- The stored attributes of a parameter. -/
def core : EMAParam → ParamCore
  | .real c => c
  | .integer c => c
  | .categorical c _ _ => c

/-- The concrete class, as a tag. -/
def kindTag : EMAParam → String
  | .real _ => "real"
  | .integer _ => "integer"
  | .categorical _ _ _ => "cat"

/-- The `lower_bound` property: recomputed from the distribution. -/
def lowerBound (p : EMAParam) : ℚ := getLowerFromDist p.core.rv_gen

/-- The `upper_bound` property: recomputed from the distribution. -/
def upperBound (p : EMAParam) : ℚ := getUpperFromDist p.core.rv_gen

/-- The stored category list (empty for non-categorical parameters). -/
def catList : EMAParam → List Category
  | .categorical _ cats _ => cats
  | _ => []

/-- The names of the stored categories, in map order. -/
def catNames (p : EMAParam) : List String := p.catList.map Category.name

end EMAParam

/-- `Parameter.__init__`: checks every resolution entry against the given
bounds, then the bound ordering, then stores the attributes (with the
distribution; the bounds themselves are not stored). -/
def Parameter.init (name : String) (lower_bound upper_bound : ℚ)
    (resolution : List PyNum) (default : Option PyNum)
    (variable_name : Option (List String)) (pff : Bool) (dist : Dist) :
    Except PyError ParamCore :=
  if resolution.all (fun entry =>
      decide (lower_bound ≤ entry.val) && decide (entry.val ≤ upper_bound)) then
    if lower_bound < upper_bound then
      .ok { name := name, resolution := resolution, default := default,
            variable_name := variable_name, pff := pff, rv_gen := dist }
    else .error (.valueError "upper bound should be larger than lower bound")
  else .error (.valueError "resolution not consistent with lower and upper bound")

/-- `RealParameter.__init__`: with no distribution both bounds are required
and an implicit `uniform(lower, upper - lower)` is frozen; with a
distribution the bounds are derived from it. -/
def RealParameter.makeCore (name : String) (lower_bound upper_bound : Option PyNum)
    (resolution : List PyNum) (default : Option PyNum)
    (variable_name : Option (List String)) (pff : Bool)
    (dist : Option Dist) : Except PyError ParamCore :=
  match dist with
  | none =>
    match lower_bound, upper_bound with
    | some lb, some ub =>
      Parameter.init name lb.val ub.val resolution default variable_name pff
        (uniformFrozen lb (ub.sub lb))
    | _, _ => .error (.valueError "must give lower_bound and upper_bound, or dist")
  | some d =>
    let bounds := getBoundsFromDist d
    Parameter.init name bounds.1 bounds.2 resolution default variable_name pff d

def RealParameter.make (name : String) (lower_bound upper_bound : Option PyNum)
    (resolution : List PyNum) (default : Option PyNum)
    (variable_name : Option (List String)) (pff : Bool)
    (dist : Option Dist) : Except PyError EMAParam :=
  (RealParameter.makeCore name lower_bound upper_bound resolution default
    variable_name pff dist).map .real

/-- Python `int()` on a rational: truncation toward zero. -/
def truncInt (q : ℚ) : Int := if 0 ≤ q then ⌊q⌋ else ⌈q⌉

/-- The checks `IntegerParameter.__init__` runs after `Parameter.__init__`:
the source tests `if not (lb_int or up_int)` — it raises only when BOTH
bounds fail `isinstance(-, numbers.Integral)` — and then requires every
resolution entry to be integral. -/
def IntegerParameter.postChecks (lower_bound upper_bound : PyNum)
    (core : ParamCore) : Except PyError ParamCore :=
  if !(lower_bound.isIntegral || upper_bound.isIntegral) then
    .error (.valueError "lower bound and upper bound must be integers")
  else if core.resolution.all (fun entry => entry.isIntegral) then .ok core
  else .error (.valueError "all entries in resolution should be integers")

/-- `IntegerParameter.__init__`: with no distribution an implicit
`randint(lower, upper + 1)` is frozen; with a distribution the bounds are
derived from it and must be integral (a `TypeError` otherwise), after which
they are converted with `int()`.  Then `Parameter.__init__` runs, then the
post checks. -/
def IntegerParameter.makeCore (name : String) (lower_bound upper_bound : Option PyNum)
    (resolution : List PyNum) (default : Option PyNum)
    (variable_name : Option (List String)) (pff : Bool)
    (dist : Option Dist) : Except PyError ParamCore :=
  match dist with
  | none =>
    match lower_bound, upper_bound with
    | some lb, some ub =>
      (Parameter.init name lb.val ub.val resolution default variable_name pff
        (randintFrozen lb (ub.add (.int 1)))).bind
        (IntegerParameter.postChecks lb ub)
    | _, _ => .error (.valueError "must give lower_bound and upper_bound, or dist")
  | some d =>
    let bounds := getBoundsFromDist d
    if bounds.1 ≠ (truncInt bounds.1 : ℚ) then
      .error (.typeError "lower bound is not an integer")
    else if bounds.2 ≠ (truncInt bounds.2 : ℚ) then
      .error (.typeError "upper bound is not an integer")
    else
      (Parameter.init name (truncInt bounds.1 : ℚ) (truncInt bounds.2 : ℚ)
        resolution default variable_name pff d).bind
        (IntegerParameter.postChecks (.int (truncInt bounds.1)) (.int (truncInt bounds.2)))

def IntegerParameter.make (name : String) (lower_bound upper_bound : Option PyNum)
    (resolution : List PyNum) (default : Option PyNum)
    (variable_name : Option (List String)) (pff : Bool)
    (dist : Option Dist) : Except PyError EMAParam :=
  (IntegerParameter.makeCore name lower_bound upper_bound resolution default
    variable_name pff dist).map .integer

/-- `CategoricalParameter.__init__`: bounds are `0` and `len(categories) - 1`
(rejecting a single category), the integer constructor runs with no explicit
distribution, the raw categories are wrapped and inserted into the ordered
map, and the resolution is overwritten with `range(len(self.categories))`. -/
def CategoricalParameter.make (name : String) (categories : List PyVal)
    (default : Option PyNum) (variable_name : Option (List String))
    (pff : Bool) (multivalue : Bool) : Except PyError EMAParam :=
  let lower_bound : Int := 0
  let upper_bound : Int := (categories.length : Int) - 1
  if upper_bound = 0 then
    .error (.valueError "there should be more than 1 category")
  else
    (IntegerParameter.makeCore name (some (.int lower_bound))
      (some (.int upper_bound)) [] default variable_name pff none).map
      (fun core =>
        let cats := NOMap.extend [] (categories.map create_category)
        .categorical
          { core with resolution := (List.range cats.length).map (fun i : Nat => PyNum.int (i : Int)) }
          cats multivalue)

/-- The `categories` property setter: `self._categories.extend(values)` — the
stored map is extended, not replaced. -/
def setCategories (p : EMAParam) (values : List Category) : EMAParam :=
  match p with
  | .categorical core cats mv => .categorical core (NOMap.extend cats values) mv
  | other => other

/-- `CategoricalParameter.index_for_cat`: scan the ordered categories and
return the position of the first whose name equals the argument; a
`ValueError` when none matches.  (Mirrors
`for i, cat in enumerate(self.categories): if cat.name == category: return i`.) -/
def indexForCatList : List Category → String → Except PyError Nat
  | [], _ => .error (.valueError "category not found")
  | c :: rest, category =>
    if c.name == category then .ok 0
    else (indexForCatList rest category).map Nat.succ

def EMAParam.index_for_cat (p : EMAParam) (category : String) : Except PyError Nat :=
  match p with
  | .categorical _ cats _ => indexForCatList cats category
  | _ => .error .attributeError

/-- `CategoricalParameter.cat_for_index`: integer indexing into the ordered
map (`self.categories[index]`), a `KeyError` when out of range. -/
def EMAParam.cat_for_index (p : EMAParam) (index : Nat) : Except PyError Category :=
  match p with
  | .categorical _ cats _ =>
    match cats.get? index with
    | some c => .ok c
    | none => .error .keyError
  | _ => .error .attributeError

/-! ## Parameter equality -/

/-- Python `==` on tuples of numbers (elementwise numeric equality). -/
def pyListEq (xs ys : List PyNum) : Bool :=
  xs.length == ys.length && (List.zip xs ys).all (fun ab => ab.1.numEq ab.2)

/-- Python `==` on keyword dicts: the same keys bound to numerically equal
values on both sides. -/
def kwdsEq (xs ys : List (String × PyNum)) : Bool :=
  xs.all (fun kv => match ys.lookup kv.1 with
    | some w => kv.2.numEq w
    | none => false) &&
  ys.all (fun kv => match xs.lookup kv.1 with
    | some w => kv.2.numEq w
    | none => false)

/-- The distribution comparisons appended by `__eq__`: frozen args, keyword
args, both support endpoints, and the family name. -/
def distAttrsEq (d e : Dist) : Bool :=
  pyListEq d.args e.args && kwdsEq d.kwds e.kwds &&
  decide (d.a = e.a) && decide (d.b = e.b) && (d.dist_name == e.dist_name)

/-- The reflection part of `__eq__`: every `__dict__` attribute except
`rv_gen` compared by value. -/
def coreAttrsEq (p q : ParamCore) : Bool :=
  (p.name == q.name) && pyListEq p.resolution q.resolution &&
  (match p.default, q.default with
   | some a, some b => a.numEq b
   | none, none => true
   | _, _ => false) &&
  decide (p.variable_name = q.variable_name) && (p.pff == q.pff)

/-- `__eq__` over constructed parameters: same concrete class, matching
non-distribution attributes (for a categorical parameter this includes the
stored category map and the multivalue flag), and matching distribution
attributes. -/
def paramEq (p q : EMAParam) : Bool :=
  match p, q with
  | .real pc, .real qc => coreAttrsEq pc qc && distAttrsEq pc.rv_gen qc.rv_gen
  | .integer pc, .integer qc => coreAttrsEq pc qc && distAttrsEq pc.rv_gen qc.rv_gen
  | .categorical pc pcats pmv, .categorical qc qcats qmv =>
    coreAttrsEq pc qc && decide (pcats = qcats) && (pmv == qmv) &&
      distAttrsEq pc.rv_gen qc.rv_gen
  | _, _ => false

/-! ## The design-space generator -/

/-- A model structure, as the generator consumes it: only its name is
read. -/
structure MSI where
  name : String
deriving DecidableEq, Repr

/-- A policy as the generator consumes it: its name is read and the object
is carried into the produced case. -/
structure PyPolicy where
  name : String
deriving DecidableEq, Repr

/-- A scenario as the generator consumes it: carried into the produced
case. -/
structure PyScenario where
  name : String
deriving DecidableEq, Repr

/-- `Case(name, model_name, policy, scenario, experiment_id)`. -/
structure Case where
  name : String
  model_name : String
  policy : PyPolicy
  scenario : PyScenario
  experiment_id : Nat
deriving DecidableEq, Repr

/-- The case the generator yields at ordinal `i` for job `(m, p, s)`:
`Case('{} {} {}'.format(msi.name, policy.name, i), msi.name, policy,
scenario, i)`. -/
def caseOf (m : MSI) (p : PyPolicy) (s : PyScenario) (i : Nat) : Case :=
  { name := m.name ++ " " ++ p.name ++ " " ++ natStr i
    model_name := m.name
    policy := p
    scenario := s
    experiment_id := i }

/-- `itertools.product` of two collections: the right factor varies
fastest. -/
def pyProduct {α β : Type} (xs : List α) (ys : List β) : List (α × β) :=
  xs.flatMap (fun x => ys.map (fun y => (x, y)))

/-- `itertools.product` of three collections. -/
def pyProduct3 {α β γ : Type} (xs : List α) (ys : List β) (zs : List γ) :
    List (α × β × γ) :=
  xs.flatMap (fun x => ys.flatMap (fun y => zs.map (fun z => (x, y, z))))

/-- Python `zip` of three collections (as triples). -/
def pyZip3 {α β γ : Type} (xs : List α) (ys : List β) (zs : List γ) :
    List (α × β × γ) :=
  (List.zip xs (List.zip ys zs)).map (fun t => (t.1, t.2.1, t.2.2))

/-- Python `set` equality, as mutual membership. -/
def setEq (xs ys : List String) : Bool :=
  xs.all (fun x => ys.contains x) && ys.all (fun y => xs.contains y)

/-- The suspended state a call to the generator function returns: Python
evaluates none of the body of a generator function at call time, so the
invocation only captures the arguments. -/
structure GenArgs where
  scenarios : List PyScenario
  model_structures : List MSI
  policies : List PyPolicy
  zip_over : Option (List String)
deriving DecidableEq, Repr

/-- `experiment_generator(scenarios, model_structures, policies, zip_over)`:
the call itself runs no validation and yields nothing — it returns the
suspended generator. -/
def experiment_generator (scenarios : List PyScenario)
    (model_structures : List MSI) (policies : List PyPolicy)
    (zip_over : Option (List String)) : GenArgs :=
  { scenarios := scenarios, model_structures := model_structures,
    policies := policies, zip_over := zip_over }

/-- Enumeration tail of the generator body: `for i, job in enumerate(jobs)`
yields `Case` values named from the model structure, the policy and the
running index. -/
def mkCases (jobs : List (MSI × PyPolicy × PyScenario)) : List Case :=
  jobs.enum.map (fun ij => caseOf ij.2.1 ij.2.2.1 ij.2.2.2 ij.1)

/-- Iterating the suspended generator: this is the generator body, which
runs only when the first case is pulled.  It validates `zip_over` (subset of
the three axis names, not a single item), asserts equal lengths on the
zipped axes, builds the job stream for the selected mode, and enumerates. -/
def GenArgs.run (g : GenArgs) : Except PyError (List Case) :=
  let zs := (g.zip_over.getD []).eraseDups
  if !(zs.all
      (fun s => s == "scenarios" || s == "policies" || s == "models")) then
    .error (.valueError
      "zip_over must be subset of scenarios, policies, models, or None")
  else if zs.length == 1 then
    .error (.valueError "zip_over cannot be one item")
  else if setEq zs ["scenarios", "policies", "models"] then
    if g.model_structures.length == g.policies.length then
      if g.model_structures.length == g.scenarios.length then
        .ok (mkCases (pyZip3 g.model_structures g.policies g.scenarios))
      else .error .assertionError
    else .error .assertionError
  else if setEq zs ["scenarios", "policies"] then
    if g.scenarios.length == g.policies.length then
      .ok (mkCases
        ((pyProduct g.model_structures (List.zip g.policies g.scenarios)).map
          (fun t => (t.1, t.2.1, t.2.2))))
    else .error .assertionError
  else if setEq zs ["scenarios", "models"] then
    if g.model_structures.length == g.scenarios.length then
      .ok (mkCases
        ((pyProduct g.policies (List.zip g.model_structures g.scenarios)).map
          (fun t => (t.2.1, t.1, t.2.2))))
    else .error .assertionError
  else if setEq zs ["policies", "models"] then
    if g.model_structures.length == g.policies.length then
      .ok (mkCases
        ((pyProduct g.scenarios (List.zip g.model_structures g.policies)).map
          (fun t => (t.2.1, t.2.2, t.1))))
    else .error .assertionError
  else
    .ok (mkCases (pyProduct3 g.model_structures g.policies g.scenarios))

/-! ## The tabular boundary -/

/-- One row of the tabular form produced by `parameters_to_csv`: the
parameter name plus its value cells.  The pandas DataFrame/csv plumbing is
not modelled; a row keeps its cell values. -/
structure Row where
  name : String
  values : List PyNum
deriving DecidableEq, Repr

/-- The row `parameters_to_csv` writes for one parameter: a categorical
parameter contributes its `resolution`; any other parameter contributes
`(lower_bound, upper_bound)`, the float results of the distribution
properties. -/
def paramToRow (p : EMAParam) : Row :=
  match p with
  | .categorical core _ _ => { name := core.name, values := core.resolution }
  | other =>
    { name := other.core.name
      values := [.float other.lowerBound, .float other.upperBound] }

/-- `parameters_to_csv` as a table: one row per parameter, name first. -/
def parameters_to_csv (ps : List EMAParam) : List Row := ps.map paramToRow

/-- One row of `create_parameters`, on a table with no TYPE column (the
shape `parameters_to_csv` produces), so the type is inferred: exactly two
values, both `numbers.Integral`, give an integer parameter; exactly two
values otherwise give a real parameter; any other value count gives a
categorical parameter over the cell values. -/
def createParameterOfRow (row : Row) : Except PyError EMAParam :=
  match row.values with
  | [l, u] =>
    if l.isIntegral && u.isIntegral then
      IntegerParameter.make row.name (some l) (some u) [] none none false none
    else
      RealParameter.make row.name (some l) (some u) [] none none false none
  | vs => CategoricalParameter.make row.name (vs.map PyVal.num) none none false false

/-- `create_parameters` over an untyped table: one parameter per row, in row
order, the first failing row aborting with its error. -/
def create_parameters (rows : List Row) : Except PyError (List EMAParam) :=
  rows.mapM createParameterOfRow

/-- Export to the tabular form and re-import. -/
def roundTrip (ps : List EMAParam) : Except PyError (List EMAParam) :=
  create_parameters (parameters_to_csv ps)

/-! ## Indexing lemmas for the job streams -/

theorem length_flatMap_const {α β : Type} (l : List α) (f : α → List β) (k : Nat)
    (hk : ∀ a, (f a).length = k) : (l.flatMap f).length = l.length * k := by
  induction l with
  | nil => simp
  | cons a l ih =>
    simp only [List.flatMap_cons, List.length_append, ih, hk, List.length_cons]
    ring

theorem getElem?_flatMap_const {α β : Type} (l : List α) (f : α → List β) (k : Nat)
    (hk : ∀ a, (f a).length = k) (i : Nat) :
    (l.flatMap f)[i]? = (l[i / k]?).bind (fun a => (f a)[i % k]?) := by
  rcases Nat.eq_zero_or_pos k with hk0 | hk0
  · subst hk0
    have hfa : ∀ a, f a = [] := fun a => List.length_eq_zero.mp (hk a)
    have hnil : l.flatMap f = [] := by
      induction l with
      | nil => rfl
      | cons a l ih => simp [List.flatMap_cons, hfa, ih]
    rw [hnil]
    cases hget : l[i / 0]? with
    | none => simp
    | some a => simp [hfa]
  · induction l generalizing i with
    | nil => simp
    | cons a l ih =>
      rw [List.flatMap_cons]
      by_cases hik : i < k
      · rw [List.getElem?_append_left (by rw [hk]; exact hik)]
        rw [Nat.div_eq_of_lt hik, Nat.mod_eq_of_lt hik]
        simp
      · obtain ⟨j, rfl⟩ : ∃ j, i = k + j := ⟨i - k, by omega⟩
        rw [List.getElem?_append_right (by rw [hk]; omega), hk a,
          Nat.add_sub_cancel_left, ih j, Nat.add_comm k j,
          Nat.add_div_right _ hk0, Nat.add_mod_right]
        simp

theorem pyProduct_length {α β : Type} (xs : List α) (ys : List β) :
    (pyProduct xs ys).length = xs.length * ys.length :=
  length_flatMap_const xs _ ys.length (fun x => by simp)

theorem getElem?_pyProduct {α β : Type} (xs : List α) (ys : List β) (i : Nat) :
    (pyProduct xs ys)[i]? =
      (xs[i / ys.length]?).bind
        (fun x => (ys[i % ys.length]?).map (fun y => (x, y))) := by
  rw [pyProduct, getElem?_flatMap_const xs _ ys.length (fun x => by simp)]
  cases xs[i / ys.length]? <;> simp

theorem pyProduct3_eq {α β γ : Type} (xs : List α) (ys : List β) (zs : List γ) :
    pyProduct3 xs ys zs =
      xs.flatMap (fun x => (pyProduct ys zs).map (fun p => (x, p.1, p.2))) := by
  simp only [pyProduct3, pyProduct, List.map_flatMap, List.map_map]
  rfl

theorem pyProduct3_length {α β γ : Type} (xs : List α) (ys : List β) (zs : List γ) :
    (pyProduct3 xs ys zs).length = xs.length * (ys.length * zs.length) := by
  rw [pyProduct3_eq]
  exact length_flatMap_const xs _ (ys.length * zs.length)
    (fun x => by simp [pyProduct_length])

theorem getElem?_pyProduct3 {α β γ : Type} (xs : List α) (ys : List β) (zs : List γ)
    (i : Nat) :
    (pyProduct3 xs ys zs)[i]? =
      (xs[i / (ys.length * zs.length)]?).bind
        (fun x => (ys[i / zs.length % ys.length]?).bind
          (fun y => (zs[i % zs.length]?).map (fun z => (x, y, z)))) := by
  rw [pyProduct3_eq,
    getElem?_flatMap_const xs _ (ys.length * zs.length)
      (fun x => by simp [pyProduct_length])]
  cases xs[i / (ys.length * zs.length)]? with
  | none => simp
  | some x =>
    simp only [Option.some_bind]
    rw [List.getElem?_map, getElem?_pyProduct]
    have hmod : i % (ys.length * zs.length) % zs.length = i % zs.length :=
      Nat.mod_mod_of_dvd i ⟨ys.length, Nat.mul_comm _ _⟩
    have hdiv : i % (ys.length * zs.length) / zs.length = i / zs.length % ys.length := by
      rw [Nat.mul_comm ys.length zs.length]
      exact Nat.mod_mul_right_div_self i zs.length ys.length
    rw [hmod, hdiv]
    cases ys[i / zs.length % ys.length]? with
    | none => simp
    | some y => cases zs[i % zs.length]? <;> simp

theorem mkCases_length (jobs : List (MSI × PyPolicy × PyScenario)) :
    (mkCases jobs).length = jobs.length := by
  simp [mkCases]

theorem getElem?_mkCases (jobs : List (MSI × PyPolicy × PyScenario)) (i : Nat) :
    (mkCases jobs)[i]? = (jobs[i]?).map (fun t => caseOf t.1 t.2.1 t.2.2 i) := by
  rw [mkCases, List.getElem?_map, List.getElem?_enum]
  cases jobs[i]? <;> simp

/-! ## Case-name lemmas -/

theorem space_data : (" " : String).data = [' '] := rfl

theorem caseOf_name_data (m : MSI) (p : PyPolicy) (s : PyScenario) (i : Nat) :
    (caseOf m p s i).name.data =
      (m.name.data ++ ' ' :: p.name.data) ++ ' ' :: natDigits i := by
  simp [caseOf, natStr, String.data_append, space_data]

theorem caseOf_id_of_name_eq {m1 m2 : MSI} {p1 p2 : PyPolicy}
    {s1 s2 : PyScenario} {i j : Nat}
    (h : (caseOf m1 p1 s1 i).name = (caseOf m2 p2 s2 j).name) : i = j := by
  have hd := congrArg String.data h
  rw [caseOf_name_data, caseOf_name_data] at hd
  exact natDigits_injective
    (lastToken_eq (space_not_mem_natDigits i) (space_not_mem_natDigits j) hd)

/-- Every successful iteration of the generator enumerates some job list. -/
theorem run_ok_shape {g : GenArgs} {cases : List Case}
    (h : g.run = .ok cases) : ∃ jobs, cases = mkCases jobs := by
  simp only [GenArgs.run] at h
  repeat' split at h
  all_goals first
    | exact ⟨_, ((Except.ok.injEq _ _).mp h).symm⟩
    | simp at h

/-! ## Ordered-map and category lemmas -/

theorem NOMap.extend_nil_right (m : List Category) : NOMap.extend m [] = m := rfl

theorem NOMap.extend_cons (m : List Category) (c : Category) (cs : List Category) :
    NOMap.extend m (c :: cs) = NOMap.extend (NOMap.append m c) cs := rfl

/-- When no names collide, extending the ordered map is plain appending. -/
theorem NOMap.extend_of_nodup (cs : List Category) :
    ∀ m : List Category, ((m ++ cs).map Category.name).Nodup →
      NOMap.extend m cs = m ++ cs := by
  induction cs with
  | nil => intro m _; simp [NOMap.extend_nil_right]
  | cons c cs ih =>
    intro m hnodup
    have hnotin : c.name ∉ m.map Category.name := by
      intro hmem
      have : c.name ∈ (c :: cs).map Category.name := by simp
      rcases List.nodup_append.mp (by simpa [List.map_append] using hnodup)
        with ⟨_, _, hdisj⟩
      exact hdisj hmem this
    have happ : NOMap.append m c = m ++ [c] := by
      rw [NOMap.append, if_neg]
      simp only [List.any_eq_true, not_exists]
      intro x hx
      exact hnotin (List.mem_map.mpr ⟨x, hx.1, (by simpa using hx.2)⟩)
    rw [NOMap.extend_cons, happ, ih (m ++ [c]) (by simpa [List.map_append] using hnodup)]
    simp

theorem indexForCatList_error_iff (cats : List Category) (target : String) :
    indexForCatList cats target = .error (.valueError "category not found") ↔
      ∀ c ∈ cats, c.name ≠ target := by
  induction cats with
  | nil => simp [indexForCatList]
  | cons c rest ih =>
    by_cases hc : c.name = target
    · simp [indexForCatList, hc]
    · rw [indexForCatList, if_neg (by simpa using hc)]
      cases hrec : indexForCatList rest target with
      | ok v =>
        constructor
        · intro he
          simp [Except.map] at he
        · intro hall
          have := ih.mpr (fun x hx => hall x (List.mem_cons_of_mem _ hx))
          rw [hrec] at this
          cases this
      | error e =>
        have : (Except.error e : Except PyError Nat).map Nat.succ = .error e := rfl
        rw [this]
        constructor
        · intro he
          have he' : e = .valueError "category not found" := by
            cases he; rfl
          intro x hx
          rcases List.mem_cons.mp hx with hx | hx
          · exact hx ▸ hc
          · exact (ih.mp (by rw [hrec, he'])) x hx
        · intro hall
          have := ih.mpr (fun x hx => hall x (List.mem_cons_of_mem _ hx))
          rw [hrec] at this
          cases this
          rfl

theorem indexForCatList_ok_iff (cats : List Category) (target : String) :
    ∀ i : Nat, indexForCatList cats target = .ok i ↔
      ((∃ c, cats[i]? = some c ∧ c.name = target) ∧
        ∀ j, j < i → ∀ c, cats[j]? = some c → c.name ≠ target) := by
  induction cats with
  | nil =>
    intro i
    simp [indexForCatList]
  | cons c rest ih =>
    intro i
    by_cases hc : c.name = target
    · rw [indexForCatList, if_pos (by simpa using hc)]
      cases i with
      | zero => simp [hc]
      | succ m =>
        simp only [Except.ok.injEq]
        constructor
        · intro h; cases h
        · rintro ⟨_, hleast⟩
          exact absurd hc (hleast 0 (Nat.succ_pos m) c (by simp))
    · rw [indexForCatList, if_neg (by simpa using hc)]
      cases i with
      | zero =>
        cases hrec : indexForCatList rest target with
        | ok v => simp [Except.map, hrec, hc]
        | error e => simp [Except.map, hrec, hc]
      | succ m =>
        have hstep : ((indexForCatList rest target).map Nat.succ = .ok (m + 1)) ↔
            indexForCatList rest target = .ok m := by
          cases hrec : indexForCatList rest target with
          | ok v => simp [Except.map]
          | error e => simp [Except.map]
        rw [hstep, ih m]
        constructor
        · rintro ⟨hex, hleast⟩
          refine ⟨by simpa using hex, ?_⟩
          intro j hj d hd
          cases j with
          | zero =>
            have hdc : c = d := by simpa using hd
            exact hdc ▸ hc
          | succ j' =>
            exact hleast j' (by omega) d (by simpa using hd)
        · rintro ⟨hex, hleast⟩
          refine ⟨by simpa using hex, ?_⟩
          intro j hj d hd
          exact hleast (j + 1) (by omega) d (by simpa using hd)

/-! ## Value and bound computation lemmas -/

@[simp] theorem PyNum.val_int (n : Int) : (PyNum.int n).val = (n : ℚ) := rfl

@[simp] theorem PyNum.val_float (q : ℚ) : (PyNum.float q).val = q := rfl

@[simp] theorem PyNum.val_sub (a b : PyNum) : (a.sub b).val = a.val - b.val := by
  cases a <;> cases b <;> simp [PyNum.sub]

@[simp] theorem PyNum.val_add (a b : PyNum) : (a.add b).val = a.val + b.val := by
  cases a <;> cases b <;> simp [PyNum.add]

theorem uniformFrozen_lower (lb ub : PyNum) :
    getLowerFromDist (uniformFrozen lb (ub.sub lb)) = lb.val := by
  simp [getLowerFromDist, uniformFrozen]

theorem uniformFrozen_upper (lb ub : PyNum) :
    getUpperFromDist (uniformFrozen lb (ub.sub lb)) = ub.val := by
  simp [getUpperFromDist, uniformFrozen]

theorem smallestPosFloat_pos : (0 : ℚ) < smallestPosFloat := by
  rw [smallestPosFloat]; positivity

theorem ceil_smallestPosFloat_mul {d : ℚ} (h0 : 0 < d) (h1 : d ≤ 2 ^ 1074) :
    ⌈smallestPosFloat * d⌉ = 1 := by
  have hpos : 0 < smallestPosFloat * d := mul_pos smallestPosFloat_pos h0
  have hle : smallestPosFloat * d ≤ smallestPosFloat * 2 ^ 1074 :=
    mul_le_mul_of_nonneg_left h1 (le_of_lt smallestPosFloat_pos)
  have hone : smallestPosFloat * 2 ^ 1074 = 1 := by
    rw [smallestPosFloat]; norm_num
  rw [Int.ceil_eq_iff]
  push_cast
  constructor
  · linarith
  · linarith

theorem randintFrozen_lower_int (low high : Int) (h0 : low < high)
    (h1 : (high : ℚ) - low ≤ 2 ^ 1074) :
    getLowerFromDist (randintFrozen (.int low) (.int high)) = (low : ℚ) := by
  have hd : (0 : ℚ) < (high : ℚ) - low := by
    have : (low : ℚ) < high := by exact_mod_cast h0
    linarith
  have hc : ⌈smallestPosFloat * ((high : ℚ) - low)⌉ = 1 :=
    ceil_smallestPosFloat_mul hd h1
  simp only [getLowerFromDist, randintFrozen, if_true, PyNum.val_int]
  rw [hc]
  push_cast
  ring

theorem randintFrozen_upper_int (low high : Int) :
    getUpperFromDist (randintFrozen (.int low) (.int high)) = (high : ℚ) - 1 := by
  simp only [getUpperFromDist, randintFrozen, PyNum.val_int, one_mul]
  have hcast : ((high : ℚ) - low) = ((high - low : Int) : ℚ) := by push_cast; ring
  rw [hcast, Int.ceil_intCast]
  push_cast
  ring

theorem randintFrozen_ppf_zero (low high : PyNum) :
    (randintFrozen low high).ppf 0 = low.val - 1 := by
  simp [randintFrozen]

/-! ## Constructor shape lemmas -/

theorem RealParameter.make_real_nodist (name : String) (lb ub : PyNum)
    (default : Option PyNum) (vn : Option (List String)) (pff : Bool)
    (h : lb.val < ub.val) :
    RealParameter.make name (some lb) (some ub) [] default vn pff none =
      Except.ok (EMAParam.real
        { name := name, resolution := [], default := (default),
          variable_name := vn, pff := pff,
          rv_gen := uniformFrozen lb (ub.sub lb) }) := by
  simp [RealParameter.make, RealParameter.makeCore, Parameter.init, Except.map, h]

theorem RealParameter.make_dist_nores (name : String) (default : Option PyNum)
    (vn : Option (List String)) (pff : Bool) (d : Dist)
    (h : (getBoundsFromDist d).1 < (getBoundsFromDist d).2) :
    RealParameter.make name none none [] default vn pff (some d) =
      Except.ok (EMAParam.real
        { name := name, resolution := [], default := (default),
          variable_name := vn, pff := pff, rv_gen := d }) := by
  simp [RealParameter.make, RealParameter.makeCore, Parameter.init, Except.map, h]

theorem IntegerParameter.makeCore_nodist_nores (name : String) (lb ub : Int)
    (default : Option PyNum) (vn : Option (List String)) (pff : Bool)
    (h : lb < ub) :
    IntegerParameter.makeCore name (some (.int lb)) (some (.int ub)) [] default vn pff none =
      Except.ok
        ({ name := name, resolution := [], default := (default),
           variable_name := vn, pff := pff,
           rv_gen := randintFrozen (.int lb) (.int (ub + 1)) } : ParamCore) := by
  have hq : ((lb : ℚ)) < ((ub : ℚ)) := by exact_mod_cast h
  simp [IntegerParameter.makeCore, Parameter.init, Except.bind,
    IntegerParameter.postChecks, PyNum.add, PyNum.isIntegral, hq]

theorem IntegerParameter.make_int_nodist (name : String) (lb ub : Int)
    (default : Option PyNum) (vn : Option (List String)) (pff : Bool)
    (h : lb < ub) :
    IntegerParameter.make name (some (.int lb)) (some (.int ub)) [] default vn pff none =
      Except.ok (EMAParam.integer
        { name := name, resolution := [], default := (default),
          variable_name := vn, pff := pff,
          rv_gen := randintFrozen (.int lb) (.int (ub + 1)) }) := by
  rw [IntegerParameter.make, IntegerParameter.makeCore_nodist_nores name lb ub default vn pff h]
  rfl

theorem CategoricalParameter.make_of_two_le (name : String) (cats : List PyVal)
    (default : Option PyNum) (vn : Option (List String)) (pff mv : Bool)
    (h : 2 ≤ cats.length) :
    CategoricalParameter.make name cats default vn pff mv =
      Except.ok (EMAParam.categorical
        { name := name
          resolution :=
            (List.range (NOMap.extend [] (cats.map create_category)).length).map
              (fun i : Nat => PyNum.int (i : Int))
          default := default, variable_name := vn, pff := pff
          rv_gen := randintFrozen (.int 0) (.int ((cats.length : Int) - 1 + 1)) }
        (NOMap.extend [] (cats.map create_category)) mv) := by
  rw [CategoricalParameter.make]
  rw [if_neg (by omega)]
  rw [IntegerParameter.makeCore_nodist_nores name 0 ((cats.length : Int) - 1)
    default vn pff (by omega)]
  rfl

theorem CategoricalParameter.make_ok_shape {name : String} {cats : List PyVal}
    {default : Option PyNum} {vn : Option (List String)} {pff mv : Bool}
    {p : EMAParam}
    (h : CategoricalParameter.make name cats default vn pff mv = .ok p) :
    ∃ core, p = .categorical core (NOMap.extend [] (cats.map create_category)) mv := by
  rw [CategoricalParameter.make] at h
  split at h
  · cases h
  · cases hmc : IntegerParameter.makeCore name (some (.int 0))
      (some (.int ((cats.length : Int) - 1))) [] default vn pff none with
    | error e => rw [hmc] at h; cases h
    | ok core =>
      rw [hmc] at h
      simp only [Except.map] at h
      exact ⟨_, ((Except.ok.injEq _ _).mp h).symm⟩

/-! ## Claim theorems -/

/-- C1: with `zip_over=None` the generator, once iterated, yields exactly
`len(models) * len(policies) * len(scenarios)` cases, enumerated as the full
cross product with models outermost, then policies, then scenarios
innermost, and the case at 0-based ordinal `i` carries `experiment_id = i`. -/
theorem ema_C1 (ss : List PyScenario) (ms : List MSI) (ps : List PyPolicy) :
    ∃ cases : List Case,
      (experiment_generator ss ms ps none).run = .ok cases ∧
      cases.length = ms.length * ps.length * ss.length ∧
      (∀ (i : Nat) (m : MSI) (p : PyPolicy) (s : PyScenario),
        ms[i / (ps.length * ss.length)]? = some m →
        ps[i / ss.length % ps.length]? = some p →
        ss[i % ss.length]? = some s →
        cases[i]? = some (caseOf m p s i)) ∧
      (∀ (i : Nat) (c : Case), cases[i]? = some c → c.experiment_id = i) := by
  refine ⟨mkCases (pyProduct3 ms ps ss), rfl, ?_, ?_, ?_⟩
  · rw [mkCases_length, pyProduct3_length, Nat.mul_assoc]
  · intro i m p s hm hp hs
    rw [getElem?_mkCases, getElem?_pyProduct3, hm, hp, hs]
    rfl
  · intro i c hc
    rw [getElem?_mkCases] at hc
    obtain ⟨t, _, rfl⟩ := Option.map_eq_some'.mp hc
    rfl

theorem ema_C1_witness :
    ∃ cases : List Case,
      (experiment_generator [⟨"S1"⟩, ⟨"S2"⟩] [⟨"M1"⟩, ⟨"M2"⟩] [⟨"P1"⟩] none).run =
        .ok cases ∧
      cases.length = 4 ∧
      cases[0]? = some (caseOf ⟨"M1"⟩ ⟨"P1"⟩ ⟨"S1"⟩ 0) ∧
      cases[1]? = some (caseOf ⟨"M1"⟩ ⟨"P1"⟩ ⟨"S2"⟩ 1) ∧
      cases[2]? = some (caseOf ⟨"M2"⟩ ⟨"P1"⟩ ⟨"S1"⟩ 2) ∧
      cases[3]? = some (caseOf ⟨"M2"⟩ ⟨"P1"⟩ ⟨"S2"⟩ 3) ∧
      (∀ (i : Nat) (c : Case), cases[i]? = some c → c.experiment_id = i) := by
  obtain ⟨cases, hrun, hlen, hidx, hid⟩ :=
    ema_C1 [⟨"S1"⟩, ⟨"S2"⟩] [⟨"M1"⟩, ⟨"M2"⟩] [⟨"P1"⟩]
  exact ⟨cases, hrun, by simpa using hlen,
    hidx 0 _ _ _ rfl rfl rfl, hidx 1 _ _ _ rfl rfl rfl,
    hidx 2 _ _ _ rfl rfl rfl, hidx 3 _ _ _ rfl rfl rfl, hid⟩

/-- C6: within one iterated generator invocation, the case at ordinal `i`
is named from the model-structure name, the policy name and `i`, carries
`experiment_id = i`, and all produced case names are pairwise distinct —
for every input, duplicate model/policy/scenario names included. -/
theorem ema_C6 (ss : List PyScenario) (ms : List MSI) (ps : List PyPolicy)
    (z : Option (List String)) (cases : List Case)
    (h : (experiment_generator ss ms ps z).run = .ok cases) :
    (∀ (i : Nat) (c : Case), cases[i]? = some c →
      c.experiment_id = i ∧
      c.name = c.model_name ++ " " ++ c.policy.name ++ " " ++ natStr i) ∧
    (∀ (i j : Nat) (ci cj : Case), cases[i]? = some ci → cases[j]? = some cj →
      i ≠ j → ci.name ≠ cj.name) := by
  obtain ⟨jobs, rfl⟩ := run_ok_shape h
  constructor
  · intro i c hc
    rw [getElem?_mkCases] at hc
    obtain ⟨t, _, rfl⟩ := Option.map_eq_some'.mp hc
    exact ⟨rfl, rfl⟩
  · intro i j ci cj hci hcj hij hname
    rw [getElem?_mkCases] at hci hcj
    obtain ⟨t, _, rfl⟩ := Option.map_eq_some'.mp hci
    obtain ⟨u, _, rfl⟩ := Option.map_eq_some'.mp hcj
    exact hij (caseOf_id_of_name_eq hname)

theorem ema_C6_witness :
    ∃ cases : List Case,
      (experiment_generator [⟨"S"⟩] [⟨"M"⟩] [⟨"P"⟩, ⟨"P"⟩] none).run = .ok cases ∧
      ((∀ (i : Nat) (c : Case), cases[i]? = some c →
        c.experiment_id = i ∧
        c.name = c.model_name ++ " " ++ c.policy.name ++ " " ++ natStr i) ∧
      (∀ (i j : Nat) (ci cj : Case), cases[i]? = some ci → cases[j]? = some cj →
        i ≠ j → ci.name ≠ cj.name)) :=
  ⟨_, rfl, ema_C6 [⟨"S"⟩] [⟨"M"⟩] [⟨"P"⟩, ⟨"P"⟩] none _ rfl⟩

/-- C8: with `zip_over` selecting scenarios and policies and equal lengths,
the iterated generator pairs `policy[k]` with `scenario[k]` and crosses the
pairs against the model structures (models outermost), so it yields
`len(models) * len(policies)` cases. -/
theorem ema_C8 (ss : List PyScenario) (ms : List MSI) (ps : List PyPolicy)
    (h : ss.length = ps.length) :
    ∃ cases : List Case,
      (experiment_generator ss ms ps (some ["scenarios", "policies"])).run =
        .ok cases ∧
      cases.length = ms.length * ps.length ∧
      (∀ (i : Nat) (m : MSI) (p : PyPolicy) (s : PyScenario),
        ms[i / ps.length]? = some m →
        ps[i % ps.length]? = some p →
        ss[i % ps.length]? = some s →
        cases[i]? = some (caseOf m p s i)) := by
  have hzlen : (List.zip ps ss).length = ps.length := by
    rw [List.length_zip, h, Nat.min_self]
  have hrun : (experiment_generator ss ms ps (some ["scenarios", "policies"])).run =
      .ok (mkCases ((pyProduct ms (List.zip ps ss)).map
        (fun t => (t.1, t.2.1, t.2.2)))) := by
    simp only [GenArgs.run, experiment_generator]
    rw [if_neg (by decide), if_neg (by decide), if_neg (by decide),
      if_pos (by decide), if_pos (by simp [h])]
  have hmapid : (pyProduct ms (List.zip ps ss)).map
      (fun t => (t.1, t.2.1, t.2.2)) = pyProduct ms (List.zip ps ss) := by
    have : (fun (t : MSI × PyPolicy × PyScenario) => (t.1, t.2.1, t.2.2)) = id := by
      funext t
      rfl
    rw [this, List.map_id]
  rw [hmapid] at hrun
  refine ⟨_, hrun, ?_, ?_⟩
  · rw [mkCases_length, pyProduct_length, hzlen]
  · intro i m p s hm hp hs
    rw [getElem?_mkCases, getElem?_pyProduct, hzlen, hm]
    have hzip : (List.zip ps ss)[i % ps.length]? = some (p, s) :=
      (List.getElem?_zip_eq_some).mpr ⟨hp, hs⟩
    rw [hzip]
    rfl

theorem ema_C8_witness :
    ∃ cases : List Case,
      (experiment_generator [⟨"S1"⟩, ⟨"S2"⟩] [⟨"M"⟩] [⟨"P1"⟩, ⟨"P2"⟩]
        (some ["scenarios", "policies"])).run = .ok cases ∧
      cases.length = 2 ∧
      cases[0]? = some (caseOf ⟨"M"⟩ ⟨"P1"⟩ ⟨"S1"⟩ 0) ∧
      cases[1]? = some (caseOf ⟨"M"⟩ ⟨"P2"⟩ ⟨"S2"⟩ 1) := by
  obtain ⟨cases, hrun, hlen, hidx⟩ :=
    ema_C8 [⟨"S1"⟩, ⟨"S2"⟩] [⟨"M"⟩] [⟨"P1"⟩, ⟨"P2"⟩] rfl
  exact ⟨cases, hrun, by simpa using hlen,
    hidx 0 _ _ _ rfl rfl rfl, hidx 1 _ _ _ rfl rfl rfl⟩


theorem setEq_mem_iff {zs ys : List String} (h : setEq zs ys = true) (x : String) :
    x ∈ zs ↔ x ∈ ys := by
  rw [setEq, Bool.and_eq_true, List.all_eq_true, List.all_eq_true] at h
  obtain ⟨h1, h2⟩ := h
  constructor
  · intro hx
    have := h1 x hx
    simpa using this
  · intro hx
    have := h2 x hx
    simpa using this

/-- The erroring inputs of the generator body: an axis name outside the
three recognised ones, a single zipped axis, or a length mismatch between
zipped axes. -/
def badZipOver (ss : List PyScenario) (ms : List MSI) (ps : List PyPolicy)
    (zl : List String) : Prop :=
  (¬ ∀ s ∈ zl.eraseDups, s = "scenarios" ∨ s = "policies" ∨ s = "models") ∨
  zl.eraseDups.length = 1 ∨
  (setEq zl.eraseDups ["scenarios", "policies", "models"] = true ∧
    (ms.length ≠ ps.length ∨ ms.length ≠ ss.length)) ∨
  (setEq zl.eraseDups ["scenarios", "policies"] = true ∧ ss.length ≠ ps.length) ∨
  (setEq zl.eraseDups ["scenarios", "models"] = true ∧ ms.length ≠ ss.length) ∨
  (setEq zl.eraseDups ["policies", "models"] = true ∧ ms.length ≠ ps.length)

/-- C2 counterexample: invoking `experiment_generator` with the invalid
`zip_over` holding the single axis name scenarios raises nothing — the
function is a Python generator function, so the call returns the suspended
generator without executing any of the body; the configuration error only
appears when the first case is pulled. -/
theorem ema_C2_counterexample :
    experiment_generator [⟨"S1"⟩] [⟨"M1"⟩] [⟨"P1"⟩] (some ["scenarios"]) =
      { scenarios := [⟨"S1"⟩], model_structures := [⟨"M1"⟩],
        policies := [⟨"P1"⟩], zip_over := some ["scenarios"] } ∧
    GenArgs.run
      { scenarios := [⟨"S1"⟩], model_structures := [⟨"M1"⟩],
        policies := [⟨"P1"⟩], zip_over := some ["scenarios"] } =
      .error (.valueError "zip_over cannot be one item") :=
  ⟨rfl, rfl⟩

/-- C2 amended: each invalid `zip_over` configuration — single axis,
unrecognised axis name, or mismatched lengths on zipped axes — makes the
generator fail when the first case is pulled, before any case is produced
(iteration returns an error and no cases); the invocation itself raises
nothing because the body of a generator function only runs on iteration. -/
theorem ema_C2_amended (ss : List PyScenario) (ms : List MSI) (ps : List PyPolicy)
    (zl : List String) (h : badZipOver ss ms ps zl) :
    ∃ e, (experiment_generator ss ms ps (some zl)).run = .error e := by
  simp only [experiment_generator, GenArgs.run, Option.getD]
  by_cases h1 : ((zl.eraseDups).all
      (fun s => s == "scenarios" || s == "policies" || s == "models")) = true
  · rw [if_neg (by simp [h1])]
    by_cases h2 : ((zl.eraseDups).length == 1) = true
    · rw [if_pos h2]
      exact ⟨_, rfl⟩
    · rw [if_neg h2]
      have hsub : ∀ s ∈ zl.eraseDups, s = "scenarios" ∨ s = "policies" ∨ s = "models" := by
        intro s hs
        have := (List.all_eq_true.mp h1) s hs
        simp at this
        tauto
      have hlen1 : zl.eraseDups.length ≠ 1 := by simpa using h2
      rcases h with h | h | ⟨h3, hlen⟩ | ⟨h4, hlen⟩ | ⟨h5, hlen⟩ | ⟨h6, hlen⟩
      · exact absurd hsub h
      · exact absurd h hlen1
      · rw [if_pos h3]
        by_cases hmp : (ms.length == ps.length) = true
        · rw [if_pos hmp]
          have hms : ¬ (ms.length == ss.length) = true := by
            rcases hlen with hl | hl
            · exact absurd (by simpa using hmp) hl
            · simpa using hl
          rw [if_neg hms]
          exact ⟨_, rfl⟩
        · rw [if_neg hmp]
          exact ⟨_, rfl⟩
      · have h3 : ¬ setEq zl.eraseDups ["scenarios", "policies", "models"] = true := by
          intro hall
          have hm1 := (setEq_mem_iff hall "models").mpr (by simp)
          have := (setEq_mem_iff h4 "models").mp hm1
          simp at this
        rw [if_neg h3, if_pos h4, if_neg (by simpa using hlen)]
        exact ⟨_, rfl⟩
      · have h3 : ¬ setEq zl.eraseDups ["scenarios", "policies", "models"] = true := by
          intro hall
          have hm1 := (setEq_mem_iff hall "policies").mpr (by simp)
          have := (setEq_mem_iff h5 "policies").mp hm1
          simp at this
        have h4 : ¬ setEq zl.eraseDups ["scenarios", "policies"] = true := by
          intro hsp
          have hm1 := (setEq_mem_iff hsp "policies").mpr (by simp)
          have := (setEq_mem_iff h5 "policies").mp hm1
          simp at this
        rw [if_neg h3, if_neg h4, if_pos h5, if_neg (by simpa using hlen)]
        exact ⟨_, rfl⟩
      · have h3 : ¬ setEq zl.eraseDups ["scenarios", "policies", "models"] = true := by
          intro hall
          have hm1 := (setEq_mem_iff hall "scenarios").mpr (by simp)
          have := (setEq_mem_iff h6 "scenarios").mp hm1
          simp at this
        have h4 : ¬ setEq zl.eraseDups ["scenarios", "policies"] = true := by
          intro hsp
          have hm1 := (setEq_mem_iff hsp "scenarios").mpr (by simp)
          have := (setEq_mem_iff h6 "scenarios").mp hm1
          simp at this
        have h5 : ¬ setEq zl.eraseDups ["scenarios", "models"] = true := by
          intro hsm
          have hm1 := (setEq_mem_iff hsm "scenarios").mpr (by simp)
          have := (setEq_mem_iff h6 "scenarios").mp hm1
          simp at this
        rw [if_neg h3, if_neg h4, if_neg h5, if_pos h6, if_neg (by simpa using hlen)]
        exact ⟨_, rfl⟩
  · rw [if_pos (by simpa using h1)]
    exact ⟨_, rfl⟩

theorem ema_C2_amended_witness :
    badZipOver [⟨"S1"⟩] [⟨"M1"⟩] [⟨"P1"⟩] ["scenarios"] ∧
    ∃ e, (experiment_generator [⟨"S1"⟩] [⟨"M1"⟩] [⟨"P1"⟩]
      (some ["scenarios"])).run = .error e :=
  ⟨Or.inr (Or.inl (by decide)),
    ema_C2_amended [⟨"S1"⟩] [⟨"M1"⟩] [⟨"P1"⟩] ["scenarios"]
      (Or.inr (Or.inl (by decide)))⟩

/-- C9: bound derivation evaluates the inverse CDF at 1 for the upper bound
and at 0 for the lower bound, except that a discrete distribution is
evaluated at the smallest representable positive float instead of exact 0;
on the discrete-uniform family the derived bounds are `(low, high - 1)`
while the inverse CDF at exact 0 really returns `low - 1`, one unit below
the true lower bound. -/
theorem ema_C9 :
    (∀ d : Dist,
      getBoundsFromDist d =
        (d.ppf (if d.isDiscrete then smallestPosFloat else 0), d.ppf 1) ∧
      getLowerFromDist d = d.ppf (if d.isDiscrete then smallestPosFloat else 0) ∧
      getUpperFromDist d = d.ppf 1) ∧
    (∀ low high : Int, low < high → (high : ℚ) - low ≤ 2 ^ 1074 →
      getBoundsFromDist (randintFrozen (.int low) (.int high)) =
        ((low : ℚ), (high : ℚ) - 1) ∧
      (randintFrozen (.int low) (.int high)).ppf 0 = (low : ℚ) - 1 ∧
      (randintFrozen (.int low) (.int high)).isDiscrete = true) := by
  refine ⟨fun d => ⟨rfl, rfl, rfl⟩, fun low high h0 h1 => ⟨?_, ?_, rfl⟩⟩
  · have hl := randintFrozen_lower_int low high h0 h1
    have hu := randintFrozen_upper_int low high
    rw [getLowerFromDist] at hl
    rw [getUpperFromDist] at hu
    rw [getBoundsFromDist]
    rw [Prod.mk.injEq]
    constructor
    · simpa using hl
    · exact hu
  · rw [randintFrozen_ppf_zero]
    simp

theorem ema_C9_witness :
    getBoundsFromDist (randintFrozen (.int 0) (.int 2)) = ((0 : ℚ), (1 : ℚ)) ∧
    (randintFrozen (.int 0) (.int 2)).ppf 0 = (-1 : ℚ) := by
  obtain ⟨hb, hz, _⟩ := ema_C9.2 0 2 (by decide) (by norm_num)
  constructor
  · rw [hb]
    norm_num
  · simpa using hz

/-- C4: the claim matches the class docstring, but the bound check in
`IntegerParameter.__init__` tests `if not (lb_int or up_int)` — it raises
only when BOTH bounds are non-integral.  A non-integral upper bound slips
through when the lower bound is an int: `IntegerParameter('x', 0, 5.5)`
constructs successfully.  Only when both bounds are non-integral does it
raise, confirming the check is reachable. -/
theorem ema_C4 :
    (PyNum.float (11 / 2)).isIntegral = false ∧
    (IntegerParameter.make "x" (some (.int 0)) (some (.float (11 / 2)))
      [] none none false none).isOk = true ∧
    IntegerParameter.make "y" (some (.float (1 / 2))) (some (.float (11 / 2)))
      [] none none false none =
      .error (.valueError "lower bound and upper bound must be integers") := by
  refine ⟨rfl, ?_, ?_⟩
  · simp only [IntegerParameter.make, IntegerParameter.makeCore, Parameter.init]
    rw [if_pos (by simp), if_pos (by norm_num [PyNum.val])]
    rfl
  · simp only [IntegerParameter.make, IntegerParameter.makeCore, Parameter.init]
    rw [if_pos (by simp), if_pos (by norm_num [PyNum.val])]
    rfl

theorem getBoundsFromDist_eq (d : Dist) :
    getBoundsFromDist d = (getLowerFromDist d, getUpperFromDist d) := rfl

/-- C7: two real parameters built from the same name and the same
`(lower, upper)` pair with no explicit distribution compare equal, while a
third over the same support built from an explicit distribution of a
non-uniform family compares unequal to both: `__eq__` requires the same
concrete class, equal non-distribution attributes, and distributions
matching on frozen args, keyword args, both support endpoints and the
family name — here the family name differs from `uniform`. -/
theorem ema_C7 (name : String) (lb ub : PyNum) (default : Option PyNum)
    (vn : Option (List String)) (pff : Bool) (h : lb.val < ub.val) (d : Dist)
    (hn : d.dist_name ≠ "uniform") (hb : getBoundsFromDist d = (lb.val, ub.val)) :
    ∃ p1 p2 p3 : EMAParam,
      RealParameter.make name (some lb) (some ub) [] default vn pff none = .ok p1 ∧
      RealParameter.make name (some lb) (some ub) [] default vn pff none = .ok p2 ∧
      RealParameter.make name none none [] default vn pff (some d) = .ok p3 ∧
      paramEq p1 p2 = true ∧
      paramEq p1 p3 = false ∧ paramEq p3 p1 = false := by
  have hd : (getBoundsFromDist d).1 < (getBoundsFromDist d).2 := by rw [hb]; exact h
  refine ⟨_, _, _, RealParameter.make_real_nodist name lb ub default vn pff h,
    RealParameter.make_real_nodist name lb ub default vn pff h,
    RealParameter.make_dist_nores name default vn pff d hd, ?_, ?_, ?_⟩
  · cases default with
    | none =>
      simp [paramEq, coreAttrsEq, distAttrsEq, pyListEq, kwdsEq, PyNum.numEq,
        uniformFrozen]
    | some dv =>
      simp [paramEq, coreAttrsEq, distAttrsEq, pyListEq, kwdsEq, PyNum.numEq,
        uniformFrozen]
  · have hfalse : ("uniform" == d.dist_name) = false :=
      beq_eq_false_iff_ne.mpr (Ne.symm hn)
    simp [paramEq, distAttrsEq, uniformFrozen, hfalse]
  · have hfalse : (d.dist_name == "uniform") = false :=
      beq_eq_false_iff_ne.mpr hn
    simp [paramEq, distAttrsEq, uniformFrozen, hfalse]

theorem ema_C7_witness :
    ∃ p1 p2 p3 : EMAParam,
      RealParameter.make "x" (some (.int 0)) (some (.int 1)) [] none none
        false none = .ok p1 ∧
      RealParameter.make "x" (some (.int 0)) (some (.int 1)) [] none none
        false none = .ok p2 ∧
      RealParameter.make "x" none none [] none none false
        (some (randintFrozen (.int 0) (.int 2))) = .ok p3 ∧
      paramEq p1 p2 = true ∧
      paramEq p1 p3 = false ∧ paramEq p3 p1 = false := by
  have hb : getBoundsFromDist (randintFrozen (.int 0) (.int 2)) =
      ((PyNum.int 0).val, (PyNum.int 1).val) := by
    rw [getBoundsFromDist_eq, randintFrozen_lower_int 0 2 (by decide) (by norm_num),
      randintFrozen_upper_int 0 2]
    norm_num [PyNum.val]
  exact ema_C7 "x" (.int 0) (.int 1) none none false (by norm_num [PyNum.val])
    (randintFrozen (.int 0) (.int 2)) (by decide) hb

/-- C5: on a constructed categorical parameter, `index_for_cat` returns the
0-based ordinal of the first stored category bearing the requested name and
fails with the lookup error when no stored category has it, while
`cat_for_index` returns the stored category at an in-range ordinal and
fails at an out-of-range one; with distinct names the stored categories are
the constructor's list in construction order. -/
theorem ema_C5 (name : String) (cats : List PyVal) (default : Option PyNum)
    (vn : Option (List String)) (pff mv : Bool) (p : EMAParam)
    (h : CategoricalParameter.make name cats default vn pff mv = .ok p) :
    ((cats.map pyValStr).Nodup → p.catList = cats.map create_category) ∧
    (∀ (target : String) (i : Nat), p.index_for_cat target = .ok i ↔
      ((∃ c, p.catList[i]? = some c ∧ c.name = target) ∧
        ∀ j, j < i → ∀ c, p.catList[j]? = some c → c.name ≠ target)) ∧
    (∀ target : String, p.index_for_cat target =
        .error (.valueError "category not found") ↔
      ∀ c ∈ p.catList, c.name ≠ target) ∧
    (∀ (i : Nat) (c : Category), p.catList[i]? = some c →
      p.cat_for_index i = .ok c) ∧
    (∀ i : Nat, p.catList[i]? = none → p.cat_for_index i = .error .keyError) := by
  obtain ⟨core, rfl⟩ := CategoricalParameter.make_ok_shape h
  refine ⟨?_, ?_, ?_, ?_, ?_⟩
  · intro hnodup
    have hnames : ((([] : List Category) ++ cats.map create_category).map
        Category.name).Nodup := by
      simpa [List.map_map, Function.comp, create_category] using hnodup
    simpa [EMAParam.catList] using
      NOMap.extend_of_nodup (cats.map create_category) [] hnames
  · intro target i
    exact indexForCatList_ok_iff _ target i
  · intro target
    exact indexForCatList_error_iff _ target
  · intro i c hc
    simp only [EMAParam.catList] at hc
    simp only [EMAParam.cat_for_index]
    rw [List.get?_eq_getElem?, hc]
  · intro i hc
    simp only [EMAParam.catList] at hc
    simp only [EMAParam.cat_for_index]
    rw [List.get?_eq_getElem?, hc]

theorem ema_C5_witness :
    ∃ p : EMAParam,
      CategoricalParameter.make "x" [.str "a", .str "b", .str "c"]
        none none false false = .ok p ∧
      p.catList = ([.str "a", .str "b", .str "c"] : List PyVal).map create_category ∧
      p.index_for_cat "b" = .ok 1 ∧
      p.cat_for_index 2 = .ok ⟨"c", .str "c"⟩ ∧
      p.index_for_cat "z" = .error (.valueError "category not found") := by
  have hmk := CategoricalParameter.make_of_two_le "x"
    [.str "a", .str "b", .str "c"] none none false false (by decide)
  exact ⟨_, hmk,
    (ema_C5 "x" [.str "a", .str "b", .str "c"] none none false false _ hmk).1
      (by decide),
    by decide, by decide, by decide⟩

theorem NOMap.length_le_append (m : List Category) (c : Category) :
    m.length ≤ (NOMap.append m c).length := by
  rw [NOMap.append]
  split
  · simp
  · simp

theorem NOMap.length_le_extend (cs : List Category) :
    ∀ m : List Category, m.length ≤ (NOMap.extend m cs).length := by
  induction cs with
  | nil => intro m; simp [NOMap.extend_nil_right]
  | cons c cs ih =>
    intro m
    rw [NOMap.extend_cons]
    exact le_trans (NOMap.length_le_append m c) (ih _)

theorem NOMap.name_mem_append (m : List Category) (c : Category) (x : Category)
    (hx : x ∈ m) : ∃ y ∈ NOMap.append m c, y.name = x.name := by
  rw [NOMap.append]
  split
  · refine ⟨if x.name == c.name then c else x, List.mem_map.mpr ⟨x, hx, rfl⟩, ?_⟩
    split
    · next hbeq => exact ((by simpa using hbeq : x.name = c.name)).symm
    · rfl
  · exact ⟨x, List.mem_append_left _ hx, rfl⟩

theorem NOMap.name_mem_extend (cs : List Category) :
    ∀ (m : List Category) (x : Category), x ∈ m →
      ∃ y ∈ NOMap.extend m cs, y.name = x.name := by
  induction cs with
  | nil =>
    intro m x hx
    exact ⟨x, by simpa [NOMap.extend_nil_right] using hx, rfl⟩
  | cons c cs ih =>
    intro m x hx
    rw [NOMap.extend_cons]
    obtain ⟨y, hy, hyn⟩ := NOMap.name_mem_append m c x hx
    obtain ⟨z, hz, hzn⟩ := ih _ _ hy
    exact ⟨z, hz, hzn.trans hyn⟩

/-- C10 counterexample: assigning to `categories` does not always append —
a value whose name matches a stored category replaces it in place, because
the ordered map is keyed by name.  Assigning a category named `a` to a
parameter holding categories named `a` and `b` leaves two categories, not
three: the result is not the previous categories followed by the assigned
list. -/
theorem ema_C10_counterexample :
    ∃ p : EMAParam,
      CategoricalParameter.make "x" [.str "a", .str "b"] none none false
        false = .ok p ∧
      p.catList = [⟨"a", .str "a"⟩, ⟨"b", .str "b"⟩] ∧
      (setCategories p [⟨"a", .str "z"⟩]).catList =
        [⟨"a", .str "z"⟩, ⟨"b", .str "b"⟩] ∧
      (setCategories p [⟨"a", .str "z"⟩]).catList ≠
        p.catList ++ [⟨"a", .str "z"⟩] := by
  have hmk := CategoricalParameter.make_of_two_le "x" [.str "a", .str "b"]
    none none false false (by decide)
  exact ⟨_, hmk, by decide, by decide, by decide⟩

/-- C10 amended: assigning to `categories` extends the stored name-keyed
map rather than replacing it — values with fresh names are appended in
order, a value whose name is already stored replaces that category in
place, so the category count never shrinks and every stored name survives
every assignment; immediately after construction with distinct names the
categories are exactly the constructor's list in construction order. -/
theorem ema_C10_amended :
    (∀ (core : ParamCore) (cats : List Category) (mv : Bool) (vs : List Category),
      ((cats ++ vs).map Category.name).Nodup →
      (setCategories (.categorical core cats mv) vs).catList = cats ++ vs) ∧
    (∀ (core : ParamCore) (cats : List Category) (mv : Bool) (vs : List Category),
      cats.length ≤ (setCategories (.categorical core cats mv) vs).catList.length) ∧
    (∀ (core : ParamCore) (cats : List Category) (mv : Bool) (vs : List Category)
      (c : Category), c ∈ cats →
      ∃ d ∈ (setCategories (.categorical core cats mv) vs).catList,
        d.name = c.name) ∧
    (∀ (name : String) (cs : List PyVal) (default : Option PyNum)
      (vn : Option (List String)) (pff mv : Bool) (q : EMAParam),
      (cs.map pyValStr).Nodup →
      CategoricalParameter.make name cs default vn pff mv = .ok q →
      q.catList = cs.map create_category) := by
  refine ⟨?_, ?_, ?_, ?_⟩
  · intro core cats mv vs hnodup
    simp only [setCategories, EMAParam.catList]
    exact NOMap.extend_of_nodup vs cats hnodup
  · intro core cats mv vs
    simp only [setCategories, EMAParam.catList]
    exact NOMap.length_le_extend vs cats
  · intro core cats mv vs c hc
    simp only [setCategories, EMAParam.catList]
    exact NOMap.name_mem_extend vs cats c hc
  · intro name cs default vn pff mv q hnodup h
    obtain ⟨core, rfl⟩ := CategoricalParameter.make_ok_shape h
    have hnames : ((([] : List Category) ++ cs.map create_category).map
        Category.name).Nodup := by
      simpa [List.map_map, Function.comp, create_category] using hnodup
    simpa [EMAParam.catList] using
      NOMap.extend_of_nodup (cs.map create_category) [] hnames

/-- A concrete stored-attribute record used to instantiate the C10 theorem. -/
def sampleCore : ParamCore :=
  { name := "x", resolution := [], default := none, variable_name := none,
    pff := false, rv_gen := uniformFrozen (.int 0) (.int 1) }

theorem ema_C10_amended_witness :
    ((setCategories (.categorical sampleCore [⟨"a", .str "a"⟩] false)
        [⟨"b", .str "b"⟩]).catList =
      [⟨"a", .str "a"⟩] ++ [⟨"b", .str "b"⟩]) ∧
    (1 ≤ (setCategories (.categorical sampleCore [⟨"a", .str "a"⟩] false)
        [⟨"b", .str "b"⟩]).catList.length) ∧
    (∃ d ∈ (setCategories (.categorical sampleCore [⟨"a", .str "a"⟩] false)
        [⟨"b", .str "b"⟩]).catList, d.name = "a") := by
  refine ⟨ema_C10_amended.1 sampleCore _ _ _ (by decide), ?_, ?_⟩
  · simpa using ema_C10_amended.2.1 sampleCore [⟨"a", .str "a"⟩] false
      [⟨"b", .str "b"⟩]
  · simpa using ema_C10_amended.2.2.1 sampleCore [⟨"a", .str "a"⟩] false
      [⟨"b", .str "b"⟩] ⟨"a", .str "a"⟩ (by simp)

/-! ## Round-trip support lemmas -/

theorem natStr_injective {a b : Nat} (h : natStr a = natStr b) : a = b :=
  natDigits_injective (congrArg String.data h)

theorem intStr_natCast (n : Nat) : intStr (n : Int) = natStr n := by
  rw [intStr, if_neg (by omega), natStr]
  simp

theorem natStr_digit (n : Nat) (h : n < 10) : natStr n = ⟨[Nat.digitChar n]⟩ := by
  rw [natStr, natDigits, dif_pos h]

theorem range_map_natStr_nodup (n : Nat) : ((List.range n).map natStr).Nodup :=
  (List.nodup_range n).map (fun _ _ h => natStr_injective h)

theorem roundTrip_singleton (p : EMAParam) :
    roundTrip [p] = (createParameterOfRow (paramToRow p)).map (fun q => [q]) := by
  rw [roundTrip, parameters_to_csv, List.map_cons, List.map_nil, create_parameters]
  cases h : createParameterOfRow (paramToRow p) with
  | ok q =>
    simp only [List.mapM, List.mapM.loop]
    rw [h]
    rfl
  | error e =>
    simp only [List.mapM, List.mapM.loop]
    rw [h]
    rfl

theorem createParameterOfRow_of_length_ne_two (row : Row)
    (h : row.values.length ≠ 2) :
    createParameterOfRow row =
      CategoricalParameter.make row.name (row.values.map PyVal.num) none none
        false false := by
  rcases hv : row.values with _ | ⟨a, _ | ⟨b, _ | ⟨c, rest⟩⟩⟩
  · simp [createParameterOfRow, hv]
  · simp [createParameterOfRow, hv]
  · exact absurd (by rw [hv]; rfl) h
  · simp [createParameterOfRow, hv]

theorem createParameterOfRow_two_floats (name : String) (lb ub : ℚ) :
    createParameterOfRow { name := name, values := [.float lb, .float ub] } =
      RealParameter.make name (some (.float lb)) (some (.float ub)) [] none
        none false none := by
  simp [createParameterOfRow, PyNum.isIntegral]

/-- Round trip of a categorical parameter with at least three distinctly
named categories: the exported resolution indices re-import as a
categorical parameter whose category names are the decimal index
strings. -/
theorem catRoundTripAux (name : String) (cats : List PyVal) (p : EMAParam)
    (h3 : 3 ≤ cats.length) (hnodup : (cats.map pyValStr).Nodup)
    (hmk : CategoricalParameter.make name cats none none false false = .ok p) :
    ∃ p', roundTrip [p] = .ok [p'] ∧ p'.kindTag = "cat" ∧
      p'.catNames = (List.range cats.length).map natStr := by
  have h2 : 2 ≤ cats.length := by omega
  have hsh := CategoricalParameter.make_of_two_le name cats none none
    false false h2
  rw [hmk] at hsh
  have hp := (Except.ok.injEq _ _).mp hsh
  have hnames : ((([] : List Category) ++ cats.map create_category).map
      Category.name).Nodup := by
    simpa [List.map_map, Function.comp, create_category] using hnodup
  have hext : NOMap.extend [] (cats.map create_category) =
      cats.map create_category := by
    simpa using NOMap.extend_of_nodup (cats.map create_category) [] hnames
  have hXlen : (NOMap.extend [] (cats.map create_category)).length =
      cats.length := by
    rw [hext, List.length_map]
  have hrow : paramToRow p =
      { name := name, values := (List.range cats.length).map
          (fun i : Nat => PyNum.int (i : Int)) } := by
    rw [hp]
    simp only [paramToRow, EMAParam.core]
    rw [hXlen]
  have hlen2 : ((List.range cats.length).map
      (fun i : Nat => PyNum.int (i : Int))).length ≠ 2 := by
    simp
    omega
  have h2' : 2 ≤ (((List.range cats.length).map
      (fun i : Nat => PyNum.int (i : Int))).map PyVal.num).length := by
    simp
    omega
  have hmk2 := CategoricalParameter.make_of_two_le name
    (((List.range cats.length).map (fun i : Nat => PyNum.int (i : Int))).map
      PyVal.num) none none false false h2'
  obtain ⟨p', hp'⟩ : ∃ p', CategoricalParameter.make name
      (((List.range cats.length).map (fun i : Nat => PyNum.int (i : Int))).map
        PyVal.num) none none false false = .ok p' := ⟨_, hmk2⟩
  have hpp' := hp' ▸ hmk2
  have hp'eq := (Except.ok.injEq _ _).mp hpp'
  have hrt : roundTrip [p] = .ok [p'] := by
    rw [roundTrip_singleton, hrow,
      createParameterOfRow_of_length_ne_two _ hlen2]
    simp only []
    rw [hp']
    rfl
  have hnames' : ((([] : List Category) ++
      ((((List.range cats.length).map (fun i : Nat => PyNum.int (i : Int))).map
        PyVal.num).map create_category)).map Category.name).Nodup := by
    simp only [List.nil_append, List.map_map]
    refine List.Nodup.map ?_ (List.nodup_range cats.length)
    intro a b hab
    refine natStr_injective ?_
    have ha := intStr_natCast a
    have hb := intStr_natCast b
    simpa [Function.comp, create_category, pyValStr, ha, hb] using hab
  have hext' := NOMap.extend_of_nodup
    ((((List.range cats.length).map (fun i : Nat => PyNum.int (i : Int))).map
      PyVal.num).map create_category) [] hnames'
  rw [List.nil_append] at hext'
  have hcn : p'.catNames = (List.range cats.length).map natStr := by
    rw [hp'eq]
    simp only [EMAParam.catNames, EMAParam.catList]
    rw [hext', List.map_map, List.map_map, List.map_map]
    refine List.map_congr_left ?_
    intro i _
    simp [Function.comp, create_category, pyValStr, intStr_natCast]
  exact ⟨p', hrt, by rw [hp'eq]; rfl, hcn⟩

/-- C3 amended: a real parameter exports its bounds and re-imports as a
real parameter with the same bounds; an integer parameter exports its
bounds as floats and therefore re-imports as a real-typed parameter with
the same bounds; a categorical parameter exports its resolution — the
indices `0 .. N-1` — not its category list, so re-importing yields a
categorical parameter whose categories are the decimal strings of the
indices: the original categories are lost. -/
theorem ema_C3_amended :
    (∀ (name : String) (lb ub : ℚ) (p : EMAParam), lb < ub →
      RealParameter.make name (some (.float lb)) (some (.float ub)) [] none
        none false none = .ok p →
      p.lowerBound = lb ∧ p.upperBound = ub ∧
      ∃ p', roundTrip [p] = .ok [p'] ∧ p'.kindTag = "real" ∧
        p'.lowerBound = lb ∧ p'.upperBound = ub) ∧
    (∀ (name : String) (lb ub : Int) (p : EMAParam), lb < ub →
      ((ub : ℚ) + 1) - lb ≤ 2 ^ 1074 →
      IntegerParameter.make name (some (.int lb)) (some (.int ub)) [] none
        none false none = .ok p →
      p.kindTag = "integer" ∧ p.lowerBound = lb ∧ p.upperBound = ub ∧
      ∃ p', roundTrip [p] = .ok [p'] ∧ p'.kindTag = "real" ∧
        p'.lowerBound = lb ∧ p'.upperBound = ub) ∧
    (∀ (name : String) (cats : List PyVal) (p : EMAParam), 3 ≤ cats.length →
      (cats.map pyValStr).Nodup →
      CategoricalParameter.make name cats none none false false = .ok p →
      ∃ p', roundTrip [p] = .ok [p'] ∧ p'.kindTag = "cat" ∧
        p'.catNames = (List.range cats.length).map natStr) := by
  refine ⟨?_, ?_, ?_⟩
  · intro name lb ub p hlt hmk
    have hv : (PyNum.float lb).val < (PyNum.float ub).val := by simpa using hlt
    have hsh := RealParameter.make_real_nodist name (.float lb) (.float ub)
      none none false hv
    rw [hmk] at hsh
    have hp := (Except.ok.injEq _ _).mp hsh
    have hlow : p.lowerBound = lb := by
      rw [hp]
      simp [EMAParam.lowerBound, EMAParam.core, uniformFrozen_lower]
    have hup : p.upperBound = ub := by
      rw [hp]
      simp [EMAParam.upperBound, EMAParam.core, uniformFrozen_upper]
    have hrow : paramToRow p = { name := name, values := [.float lb, .float ub] } := by
      rw [hp]
      simp only [paramToRow, EMAParam.core]
      rw [show EMAParam.lowerBound _ = lb from hp ▸ hlow,
        show EMAParam.upperBound _ = ub from hp ▸ hup]
    have hrt : roundTrip [p] = .ok [p] := by
      rw [roundTrip_singleton, hrow, createParameterOfRow_two_floats,
        RealParameter.make_real_nodist name (.float lb) (.float ub)
          none none false hv, ← hp]
      rfl
    exact ⟨hlow, hup, p, hrt, by rw [hp]; rfl, hlow, hup⟩
  · intro name lb ub p hlt hrange hmk
    have hlow' : getLowerFromDist (randintFrozen (.int lb) (.int (ub + 1))) =
        (lb : ℚ) :=
      randintFrozen_lower_int lb (ub + 1) (by omega) (by push_cast; linarith)
    have hup' : getUpperFromDist (randintFrozen (.int lb) (.int (ub + 1))) =
        (ub : ℚ) := by
      rw [randintFrozen_upper_int lb (ub + 1)]
      push_cast
      ring
    have hvq : (lb : ℚ) < (ub : ℚ) := by exact_mod_cast hlt
    have hv : (PyNum.float (lb : ℚ)).val < (PyNum.float (ub : ℚ)).val := by
      simpa using hvq
    have hsh := IntegerParameter.make_int_nodist name lb ub none none false hlt
    rw [hmk] at hsh
    have hp := (Except.ok.injEq _ _).mp hsh
    have hlow : p.lowerBound = (lb : ℚ) := by
      rw [hp]
      simpa [EMAParam.lowerBound, EMAParam.core] using hlow'
    have hup : p.upperBound = (ub : ℚ) := by
      rw [hp]
      simpa [EMAParam.upperBound, EMAParam.core] using hup'
    have hrow : paramToRow p =
        { name := name, values := [.float (lb : ℚ), .float (ub : ℚ)] } := by
      rw [hp]
      simp only [paramToRow, EMAParam.core]
      rw [show EMAParam.lowerBound _ = (lb : ℚ) from hp ▸ hlow,
        show EMAParam.upperBound _ = (ub : ℚ) from hp ▸ hup]
    have hmk2 := RealParameter.make_real_nodist name (.float (lb : ℚ))
      (.float (ub : ℚ)) none none false hv
    obtain ⟨p', hp'⟩ : ∃ p', RealParameter.make name (some (.float (lb : ℚ)))
        (some (.float (ub : ℚ))) [] none none false none = .ok p' := ⟨_, hmk2⟩
    have hpp' := hp' ▸ hmk2
    have hp'eq := (Except.ok.injEq _ _).mp hpp'
    have hrt : roundTrip [p] = .ok [p'] := by
      rw [roundTrip_singleton, hrow, createParameterOfRow_two_floats, hp']
      rfl
    refine ⟨by rw [hp]; rfl, hlow, hup, p', hrt, by rw [hp'eq]; rfl, ?_, ?_⟩
    · rw [hp'eq]
      simp [EMAParam.lowerBound, EMAParam.core, uniformFrozen_lower]
    · rw [hp'eq]
      simp [EMAParam.upperBound, EMAParam.core, uniformFrozen_upper]
  · exact catRoundTripAux

/-- C3 counterexample: exporting a categorical parameter writes its
resolution — the indices — not the category list, so the round trip does
not reproduce the categories: `['a','b','c']` re-imports as categories
named `"0"`, `"1"`, `"2"`. -/
theorem ema_C3_counterexample :
    ∃ p p' : EMAParam,
      CategoricalParameter.make "c" [.str "a", .str "b", .str "c"]
        none none false false = .ok p ∧
      p.catNames = ["a", "b", "c"] ∧
      roundTrip [p] = .ok [p'] ∧
      p'.catNames = ["0", "1", "2"] ∧
      p'.catNames ≠ p.catNames := by
  have hmk := CategoricalParameter.make_of_two_le "c"
    [.str "a", .str "b", .str "c"] none none false false (by decide)
  obtain ⟨p', hrt, _, hcn⟩ := catRoundTripAux "c"
    [.str "a", .str "b", .str "c"] _ (by decide) (by decide) hmk
  have h0 : natStr 0 = "0" := by
    rw [natStr_digit 0 (by omega)]
    decide
  have h1 : natStr 1 = "1" := by
    rw [natStr_digit 1 (by omega)]
    decide
  have h2 : natStr 2 = "2" := by
    rw [natStr_digit 2 (by omega)]
    decide
  have hev : (List.range ([PyVal.str "a", PyVal.str "b",
      PyVal.str "c"].length)).map natStr = ["0", "1", "2"] := by
    rw [show List.range ([PyVal.str "a", PyVal.str "b",
      PyVal.str "c"].length) = [0, 1, 2] by decide]
    simp [h0, h1, h2]
  refine ⟨_, p', hmk, by decide, hrt, by rw [hcn, hev], ?_⟩
  rw [hcn, hev]
  decide

theorem ema_C3_amended_witness :
    (∃ p p' : EMAParam,
      RealParameter.make "r" (some (.float (1 / 2))) (some (.float (3 / 2)))
        [] none none false none = .ok p ∧
      roundTrip [p] = .ok [p'] ∧ p'.kindTag = "real" ∧
      p'.lowerBound = 1 / 2 ∧ p'.upperBound = 3 / 2) ∧
    (∃ p p' : EMAParam,
      IntegerParameter.make "i" (some (.int 1)) (some (.int 9)) [] none none
        false none = .ok p ∧
      p.kindTag = "integer" ∧ p.lowerBound = 1 ∧ p.upperBound = 9 ∧
      roundTrip [p] = .ok [p'] ∧ p'.kindTag = "real" ∧
      p'.lowerBound = 1 ∧ p'.upperBound = 9) ∧
    (∃ p p' : EMAParam,
      CategoricalParameter.make "c" [.str "a", .str "b", .str "c"]
        none none false false = .ok p ∧
      roundTrip [p] = .ok [p'] ∧ p'.kindTag = "cat" ∧
      p'.catNames = (List.range 3).map natStr) := by
  refine ⟨?_, ?_, ?_⟩
  · have hmk := RealParameter.make_real_nodist "r" (.float (1 / 2))
      (.float (3 / 2)) none none false (by norm_num [PyNum.val])
    obtain ⟨_, _, p', hrt, htag, hlow, hup⟩ :=
      ema_C3_amended.1 "r" (1 / 2) (3 / 2) _ (by norm_num) hmk
    exact ⟨_, p', hmk, hrt, htag, hlow, hup⟩
  · have hmk := IntegerParameter.make_int_nodist "i" 1 9 none none false
      (by omega)
    obtain ⟨htag0, hlow0, hup0, p', hrt, htag, hlow, hup⟩ :=
      ema_C3_amended.2.1 "i" 1 9 _ (by omega) (by norm_num) hmk
    refine ⟨_, p', hmk, htag0, by simpa using hlow0, by simpa using hup0,
      hrt, htag, by simpa using hlow, by simpa using hup⟩
  · have hmk := CategoricalParameter.make_of_two_le "c"
      [.str "a", .str "b", .str "c"] none none false false (by decide)
    obtain ⟨p', hrt, htag, hcn⟩ := ema_C3_amended.2.2 "c"
      [.str "a", .str "b", .str "c"] _ (by decide) (by decide) hmk
    exact ⟨_, p', hmk, hrt, htag, by simpa using hcn⟩

end EMA
